import Mathlib

/-!
Verification development for the godnstwist repository (Go).

The development shallowly embeds the two core subsystems:

* the Mutation Engine (`internal/fuzzer`: `NewFuzzer`, `addDomain`, the
  twelve mutators, `Generate`), and
* the Enrichment Scanner (`internal/scanner`: `NewScanner`, `Scan`,
  `scanDomain`, `lookupA`/`lookupMX`/`lookupNS`), and
* the engine-level constructor (`pkg/dnstwist`: `New`).

Go strings holding domain names are modelled as `List Char` (the inputs the
mutators operate on are ASCII, where Go's byte indexing coincides with
character indexing).  Go maps are modelled as association lists.  Network
and file-system effects are modelled by explicit environment records.
-/

namespace Godnstwist

/-! ## FQDN grammar

The source guards every store with
`validFQDNRegex = regexp.MustCompile("^([a-z0-9-]{1,63}\\.)+[a-z]{2,63}$")`.
Because neither `[a-z0-9-]` nor `[a-z]` can match a dot, a string matches
this anchored regex exactly when splitting it on the dots yields at least
two fields, every field but the last is a 1–63 character string over
`[a-z0-9-]`, and the last field is a 2–63 character string over `[a-z]`.
`matchFQDN` below is that characterisation. -/

/-- One character of the class `[a-z]` (code points 97–122). -/
def isLowerAlpha (c : Char) : Bool := (97 ≤ c.toNat) && (c.toNat ≤ 122)

/-- One character of the class `[0-9]` (code points 48–57). -/
def isDigitChar (c : Char) : Bool := (48 ≤ c.toNat) && (c.toNat ≤ 57)

/-- One character of the class `[a-z0-9-]` (`'-'` is code point 45). -/
def isLabelChar (c : Char) : Bool := isLowerAlpha c || isDigitChar c || (c.toNat == 45)

/-- Split a character list on `','` (the behaviour of Go's
`strings.Split(s, ",")`): always returns at least one (possibly empty)
field. -/
def splitOnComma : List Char → List (List Char)
  | [] => [[]]
  | ',' :: rest => [] :: splitOnComma rest
  | c :: rest =>
    match splitOnComma rest with
    | [] => [[c]]
    | p :: ps => (c :: p) :: ps

/-- An ASCII white-space character (the ASCII fragment of the class
trimmed by Go's `strings.TrimSpace`; selector and dictionary tokens are
ASCII). -/
def isSpaceChar (c : Char) : Bool :=
  c.toNat == 32 || c.toNat == 9 || c.toNat == 10 ||
    c.toNat == 13 || c.toNat == 11 || c.toNat == 12

/-- Go's `strings.TrimSpace` (on ASCII input): drop white space from both
ends. -/
def trimSpace (s : List Char) : List Char :=
  ((s.dropWhile isSpaceChar).reverse.dropWhile isSpaceChar).reverse

/-- Split a character list on `'.'` (the behaviour of Go's
`strings.Split(s, ".")`): always returns at least one (possibly empty)
field. -/
def splitOnDot : List Char → List (List Char)
  | [] => [[]]
  | '.' :: rest => [] :: splitOnDot rest
  | c :: rest =>
    match splitOnDot rest with
    | [] => [[c]]
    | p :: ps => (c :: p) :: ps

/-- A non-final label of the regex: `[a-z0-9-]{1,63}`. -/
def validLabel (l : List Char) : Bool :=
  (1 ≤ l.length) && (l.length ≤ 63) && l.all isLabelChar

/-- The final label of the regex: `[a-z]{2,63}`. -/
def validFinalLabel (l : List Char) : Bool :=
  (2 ≤ l.length) && (l.length ≤ 63) && l.all isLowerAlpha

/-- `validFQDNRegex.MatchString` (see the header comment: the split-based
characterisation of the anchored regex
`^([a-z0-9-]{1,63}\.)+[a-z]{2,63}$`). -/
def matchFQDN (s : List Char) : Bool :=
  let parts := splitOnDot s
  (2 ≤ parts.length) && parts.dropLast.all validLabel &&
    validFinalLabel (parts.getLastD [])

/-! ## Candidate data model

`internal/fuzzer`'s `Domain` struct.  The scanner and engine versions of
the struct additionally carry `Punycode` and `Cyrillic` fields (they are
read by `scanner.scanDomain` and `dnstwist.generate`); the fuzzer's
composite literal in `addDomain` leaves every field it does not mention at
its Go zero value, which for those two fields is the empty string and
`false`. -/

structure Domain where
  Fuzzer : String
  Domain : List Char
  Punycode : List Char
  Cyrillic : Bool
  DNS : List (String × List String)
  GeoIP : String
  Banner : List (String × String)
  Whois : List (String × String)
  LSH : List (String × Int)
  PHash : Int
  deriving DecidableEq, Repr

/-- Go map read `m[k]` for `map[string][]string` (zero value `nil`,
i.e. the empty list). -/
def dnsGet (m : List (String × List String)) (k : String) : List String :=
  match m with
  | [] => []
  | p :: rest => if p.1 == k then p.2 else dnsGet rest k

/-- Go map write `m[k] = v` for `map[string][]string` (update the existing
binding, or add one). -/
def dnsSet (m : List (String × List String)) (k : String) (v : List String) :
    List (String × List String) :=
  match m with
  | [] => [(k, v)]
  | p :: rest => if p.1 == k then (k, v) :: rest else p :: dnsSet rest k v

/-- Go map read `m[k]` for `map[string]string` (zero value `""`). -/
def bannerGet (m : List (String × String)) (k : String) : String :=
  match m with
  | [] => ""
  | p :: rest => if p.1 == k then p.2 else bannerGet rest k

/-- Go map write `m[k] = v` for `map[string]string` (update the existing
binding, or add one). -/
def bannerSet (m : List (String × String)) (k : String) (v : String) :
    List (String × String) :=
  match m with
  | [] => [(k, v)]
  | p :: rest => if p.1 == k then (k, v) :: rest else p :: bannerSet rest k v

/-! ## Mutation Engine state -/

/-- `internal/fuzzer`'s `Fuzzer` struct (the `sync.RWMutex` guards the
`domains` slice; in this sequential model state passing replaces it). -/
structure Fuzzer where
  subdomainPart : List Char
  domain : List Char
  tld : List Char
  domains : List Domain
  tldFile : String
  deriving DecidableEq, Repr

/-- `fuzzer.NewFuzzer`: split the input on `.`; fewer than two fields is
the only failure (`nil` receiver, modelled as `none`).  The last field is
the TLD, the second-to-last the primary label, the rest the fixed
subdomain prefix. -/
def NewFuzzer (domain : List Char) : Option Fuzzer :=
  let parts := splitOnDot domain
  if parts.length < 2 then none
  else
    some
      { subdomainPart := List.intercalate ['.'] (parts.take (parts.length - 2))
        domain := parts.getD (parts.length - 2) []
        tld := parts.getD (parts.length - 1) []
        domains := []
        tldFile := "" }

/-- `fuzzer.SetTLDFile`. -/
def SetTLDFile (f : Fuzzer) (tldFile : String) : Fuzzer :=
  { f with tldFile := tldFile }

/-- The composite literal appended by `fuzzer.addDomain`: the four maps
are created empty (`make(...)`), every other unmentioned field is its Go
zero value. -/
def mkCandidate (fuzzer : String) (domain : List Char) : Domain :=
  { Fuzzer := fuzzer, Domain := domain, Punycode := [], Cyrillic := false,
    DNS := [], GeoIP := "", Banner := [], Whois := [], LSH := [], PHash := 0 }

/-- `fuzzer.addDomain`: the validation gate.  A candidate failing
`validFQDNRegex` is dropped with no diagnostic; otherwise a fresh
candidate is appended. -/
def addDomain (f : Fuzzer) (fuzzer : String) (domain : List Char) : Fuzzer :=
  if matchFQDN domain then
    { f with domains := f.domains ++ [mkCandidate fuzzer domain] }
  else f

/-- The characters `'a'` through `'z'` of the first `addition`/`insertion`
loop. -/
def lowercaseLetters : List Char := "abcdefghijklmnopqrstuvwxyz".toList

/-- The characters `'0'` through `'9'` of the second `addition`/`insertion`
loop. -/
def digitChars : List Char := "0123456789".toList

/-- `fuzzer.addition`: append each of `a`–`z`, then each of `0`–`9`, to the
end of the primary label. -/
def addition (f : Fuzzer) : Fuzzer :=
  let f1 := lowercaseLetters.foldl
    (fun acc c => addDomain acc "addition" (f.domain ++ [c] ++ '.' :: f.tld)) f
  digitChars.foldl
    (fun acc c => addDomain acc "addition" (f.domain ++ [c] ++ '.' :: f.tld)) f1

/-- `fuzzer.bitsquatting`: for every byte position and each of the 8 bit
positions, flip that bit; keep the result only when the flipped byte is in
`[a-z0-9-]`. -/
def bitsquatting (f : Fuzzer) : Fuzzer :=
  (List.range f.domain.length).foldl
    (fun acc i =>
      (List.range 8).foldl
        (fun acc2 bit =>
          let c := (f.domain.getD i ' ').toNat
          let flipped := c ^^^ (1 <<< bit)
          if (97 ≤ flipped && flipped ≤ 122) || (48 ≤ flipped && flipped ≤ 57) ||
              flipped == 45 then
            addDomain acc2 "bitsquatting"
              (f.domain.take i ++ [Char.ofNat flipped] ++ f.domain.drop (i + 1) ++
                '.' :: f.tld)
          else acc2)
        acc)
    f

/-- The homoglyph confusable table of `fuzzer.homoglyph`, with the exact
code points of the source (U+0430 `а`, U+03B1 `α`, U+044C `ь`, U+0432 `в`,
U+0441 `с`, U+00E7 `ç`, U+0501 `ԁ`, U+0435 `е`, U+0261 `ɡ`, U+04BB `һ`,
U+0456 `і`, U+0458 `ј`, U+043A `к`, U+04CF `ӏ`, U+043C `м`, U+043F `п`,
U+043E `о`, U+03BF `ο`, U+0440 `р`, U+051B `ԛ`, U+0455 `ѕ`, U+0442 `т`,
U+03C5 `υ`, U+0475 `ѵ`, U+051D `ԝ`, U+0445 `х`, U+0443 `у`); keys absent
from the Go map yield the empty replacement list. -/
def homoglyphTable (c : Char) : List Char :=
  if c == 'a' then [Char.ofNat 0x430, Char.ofNat 0x3b1, Char.ofNat 0x430]
  else if c == 'b' then [Char.ofNat 0x44c, Char.ofNat 0x432]
  else if c == 'c' then [Char.ofNat 0x441, Char.ofNat 0xe7]
  else if c == 'd' then [Char.ofNat 0x501, 'd']
  else if c == 'e' then [Char.ofNat 0x435, Char.ofNat 0x435]
  else if c == 'g' then [Char.ofNat 0x261, 'g']
  else if c == 'h' then [Char.ofNat 0x4bb, 'h']
  else if c == 'i' then [Char.ofNat 0x456, 'i']
  else if c == 'j' then [Char.ofNat 0x458, 'j']
  else if c == 'k' then [Char.ofNat 0x43a, 'k']
  else if c == 'l' then [Char.ofNat 0x4cf, 'l']
  else if c == 'm' then [Char.ofNat 0x43c, 'm']
  else if c == 'n' then [Char.ofNat 0x43f, 'n']
  else if c == 'o' then [Char.ofNat 0x43e, Char.ofNat 0x3bf]
  else if c == 'p' then [Char.ofNat 0x440, 'p']
  else if c == 'q' then [Char.ofNat 0x51b, 'q']
  else if c == 's' then [Char.ofNat 0x455, 's']
  else if c == 't' then [Char.ofNat 0x442, 't']
  else if c == 'u' then [Char.ofNat 0x3c5, 'u']
  else if c == 'v' then [Char.ofNat 0x475, 'v']
  else if c == 'w' then [Char.ofNat 0x51d, 'w']
  else if c == 'x' then [Char.ofNat 0x445, 'x']
  else if c == 'y' then [Char.ofNat 0x443, 'y']
  else if c == 'z' then ['z', 'z']
  else []

/-- `fuzzer.homoglyph`: substitute each confusable at each position (the
Go loop ranges over rune positions; on the ASCII labels produced by
`NewFuzzer` byte and rune positions coincide). -/
def homoglyph (f : Fuzzer) : Fuzzer :=
  (List.range f.domain.length).foldl
    (fun acc i =>
      (homoglyphTable (f.domain.getD i ' ')).foldl
        (fun acc2 r =>
          addDomain acc2 "homoglyph"
            (f.domain.take i ++ [r] ++ f.domain.drop (i + 1) ++ '.' :: f.tld))
        acc)
    f

/-- `fuzzer.hyphenation`: insert `-` at every internal boundary. -/
def hyphenation (f : Fuzzer) : Fuzzer :=
  (List.range f.domain.length).foldl
    (fun acc i =>
      if 1 ≤ i then
        addDomain acc "hyphenation"
          (f.domain.take i ++ '-' :: f.domain.drop i ++ '.' :: f.tld)
      else acc)
    f

/-- `fuzzer.insertion`: insert each of `a`–`z` and `0`–`9` before each
position. -/
def insertion (f : Fuzzer) : Fuzzer :=
  (List.range f.domain.length).foldl
    (fun acc i =>
      let acc1 := lowercaseLetters.foldl
        (fun a c =>
          addDomain a "insertion"
            (f.domain.take i ++ [c] ++ f.domain.drop i ++ '.' :: f.tld)) acc
      digitChars.foldl
        (fun a c =>
          addDomain a "insertion"
            (f.domain.take i ++ [c] ++ f.domain.drop i ++ '.' :: f.tld)) acc1)
    f

/-- `fuzzer.omission`: delete the character at each position. -/
def omission (f : Fuzzer) : Fuzzer :=
  (List.range f.domain.length).foldl
    (fun acc i =>
      addDomain acc "omission"
        (f.domain.take i ++ f.domain.drop (i + 1) ++ '.' :: f.tld))
    f

/-- `fuzzer.repetition`: duplicate the character at each position. -/
def repetition (f : Fuzzer) : Fuzzer :=
  (List.range f.domain.length).foldl
    (fun acc i =>
      addDomain acc "repetition"
        (f.domain.take i ++ [f.domain.getD i ' '] ++ f.domain.drop i ++
          '.' :: f.tld))
    f

/-- The keyboard-adjacency table of `fuzzer.replacement`. -/
def keyboardTable (c : Char) : List Char :=
  if c == 'a' then "qwsz".toList
  else if c == 'b' then "vghn".toList
  else if c == 'c' then "xdfv".toList
  else if c == 'd' then "serfcx".toList
  else if c == 'e' then "wrsd".toList
  else if c == 'f' then "drtgvc".toList
  else if c == 'g' then "ftyhbv".toList
  else if c == 'h' then "gyujnb".toList
  else if c == 'i' then "ujko".toList
  else if c == 'j' then "huikmn".toList
  else if c == 'k' then "jiolm".toList
  else if c == 'l' then "kop".toList
  else if c == 'm' then "njk".toList
  else if c == 'n' then "bhjm".toList
  else if c == 'o' then "iklp".toList
  else if c == 'p' then "ol".toList
  else if c == 'q' then "wa".toList
  else if c == 'r' then "edft".toList
  else if c == 's' then "awedxz".toList
  else if c == 't' then "rfgy".toList
  else if c == 'u' then "yhji".toList
  else if c == 'v' then "cfgb".toList
  else if c == 'w' then "qase".toList
  else if c == 'x' then "zsdc".toList
  else if c == 'y' then "tghu".toList
  else if c == 'z' then "asx".toList
  else []

/-- `fuzzer.replacement`: substitute each adjacent keyboard key. -/
def replacement (f : Fuzzer) : Fuzzer :=
  (List.range f.domain.length).foldl
    (fun acc i =>
      (keyboardTable (f.domain.getD i ' ')).foldl
        (fun acc2 r =>
          addDomain acc2 "replacement"
            (f.domain.take i ++ [r] ++ f.domain.drop (i + 1) ++ '.' :: f.tld))
        acc)
    f

/-- `fuzzer.subdomain`: insert a `.` at each internal boundary not adjacent
to a hyphen (the loop runs for `1 ≤ i < len - 1`). -/
def subdomain (f : Fuzzer) : Fuzzer :=
  (List.range f.domain.length).foldl
    (fun acc i =>
      if 1 ≤ i && i + 1 < f.domain.length &&
          !(f.domain.getD i ' ' == '-') && !(f.domain.getD (i - 1) ' ' == '-') then
        addDomain acc "subdomain"
          (f.domain.take i ++ '.' :: f.domain.drop i ++ '.' :: f.tld)
      else acc)
    f

/-- `fuzzer.transposition`: swap each pair of adjacent characters (the loop
runs for `0 ≤ i < len - 1`). -/
def transposition (f : Fuzzer) : Fuzzer :=
  (List.range f.domain.length).foldl
    (fun acc i =>
      if i + 1 < f.domain.length then
        addDomain acc "transposition"
          (f.domain.take i ++ [f.domain.getD (i + 1) ' ', f.domain.getD i ' '] ++
            f.domain.drop (i + 2) ++ '.' :: f.tld)
      else acc)
    f

/-- The vowels of `fuzzer.vowelSwap`. -/
def vowelChars : List Char := "aeiou".toList

/-- `fuzzer.vowelSwap`: at each vowel position, substitute each of the
other four vowels. -/
def vowelSwap (f : Fuzzer) : Fuzzer :=
  (List.range f.domain.length).foldl
    (fun acc i =>
      if vowelChars.contains (f.domain.getD i ' ') then
        vowelChars.foldl
          (fun acc2 v =>
            if v == f.domain.getD i ' ' then acc2
            else
              addDomain acc2 "vowel-swap"
                (f.domain.take i ++ [v] ++ f.domain.drop (i + 1) ++ '.' :: f.tld))
          acc
      else acc)
    f

/-- One line of a TLD dictionary file, as processed by the loop body of
`fuzzer.readTLDDictionary`: trim; skip blank lines and lines starting with
`//`; truncate at an inline `//` and trim again; keep the result when
non-empty. -/
def processDictLine (line : String) : Option String :=
  let l := line.trim
  if l == "" || l.startsWith "//" then none
  else
    let l2 := ((l.splitOn "//").headD l).trim
    if l2 == "" then none else some l2

/-- `fuzzer.readTLDDictionary`, with the file system abstracted as a map
from file names to the file's raw lines (`none` models `os.Open`
failing). -/
def readTLDDictionary (fs : String → Option (List String)) (filename : String) :
    Option (List String) :=
  (fs filename).map (fun ls => ls.filterMap processDictLine)

/-- `fuzzer.tldSwap`: default dictionary path when none was set, read and
merge the comma-separated dictionary files (unreadable files skipped),
de-duplicate preserving first occurrence, and emit the label combined with
each TLD except the original. -/
def tldSwap (fs : String → Option (List String)) (f : Fuzzer) : Fuzzer :=
  let tldFile := if f.tldFile == "" then "dictionaries/common_tlds.dict" else f.tldFile
  let allTlds := (splitOnComma tldFile.toList).foldl
    (fun acc file =>
      let file := trimSpace file
      if file == [] then acc
      else
        match readTLDDictionary fs (String.mk file) with
        | none => acc
        | some tlds => acc ++ tlds)
    []
  let uniqueTlds := allTlds.foldl
    (fun acc t => if acc.contains t then acc else acc ++ [t]) []
  uniqueTlds.foldl
    (fun acc t =>
      if t.toList == f.tld then acc
      else addDomain acc "tld-swap" (f.domain ++ '.' :: t.toList))
    f

/-- The switch of `fuzzer.Generate`: dispatch one (already trimmed)
selector token to its mutator; unrecognized names are silently ignored. -/
def applyFuzzer (fs : String → Option (List String)) (f : Fuzzer)
    (name : List Char) : Fuzzer :=
  if name == ("addition").toList then addition f
  else if name == ("bitsquatting").toList then bitsquatting f
  else if name == ("homoglyph").toList then homoglyph f
  else if name == ("hyphenation").toList then hyphenation f
  else if name == ("insertion").toList then insertion f
  else if name == ("omission").toList then omission f
  else if name == ("repetition").toList then repetition f
  else if name == ("replacement").toList then replacement f
  else if name == ("subdomain").toList then subdomain f
  else if name == ("transposition").toList then transposition f
  else if name == ("vowel-swap").toList then vowelSwap f
  else if name == ("tld-swap").toList then tldSwap fs f
  else f

/-- The default mutator set of `fuzzer.Generate` (excludes `tld-swap`). -/
def defaultFuzzers : List (List Char) :=
  [("addition").toList, ("bitsquatting").toList, ("homoglyph").toList,
   ("hyphenation").toList, ("insertion").toList, ("omission").toList,
   ("repetition").toList, ("replacement").toList, ("subdomain").toList,
   ("transposition").toList, ("vowel-swap").toList]

/-- `fuzzer.Generate`: emit the original domain first (through the same
gate), then split the selector on commas — an empty selector expands to
the default set — and apply each (white-space-trimmed) selected mutator.
The Go function returns an always-`nil` error, dropped here. -/
def Generate (fs : String → Option (List String)) (f : Fuzzer)
    (fuzzers : String) : Fuzzer :=
  let f0 := addDomain f "original" (f.domain ++ '.' :: f.tld)
  let fuzzerList := splitOnComma fuzzers.toList
  let fuzzerList :=
    if fuzzerList.length == 0 || fuzzers == "" then defaultFuzzers else fuzzerList
  fuzzerList.foldl (fun acc nm => applyFuzzer fs acc (trimSpace nm)) f0

/-! ## Enrichment Scanner -/

/-- `scanner.Config`. -/
structure Config where
  All : Bool
  Banners : Bool
  GeoIP : Bool
  LSH : String
  MXCheck : Bool
  NSCheck : Bool
  Nameservers : String
  PHash : Bool
  Screenshots : String
  UserAgent : String
  Threads : Int
  deriving DecidableEq, Repr

/-- `scanner.Scanner`: `geoipOpen` records whether `geoip2.Open` succeeded
(loading failure is non-fatal and just leaves the handle `nil`). -/
structure Scanner where
  config : Config
  geoipOpen : Bool
  nameserver : String
  deriving DecidableEq, Repr

/-- `scanner.NewScanner`: no validation of any field; GeoIP database
opening (outcome `geoipAvailable`) is attempted only when configured and
failure is swallowed; only the first comma-separated nameserver is kept,
defaulting to `8.8.8.8:53`. -/
def NewScanner (geoipAvailable : Bool) (config : Config) : Scanner :=
  { config := config
    geoipOpen := config.GeoIP && geoipAvailable
    nameserver :=
      if config.Nameservers == "" then "8.8.8.8:53"
      else (config.Nameservers.splitOn ",").headD "" }

/-- The network environment of one scan: DNS answers keyed by the queried
name (an `Except.error` models a resolver error or a non-success response
code, which the source treats alike), GeoIP parse/lookup outcomes, and
banner-probe outcomes (`none` models any I/O failure). -/
structure ScanEnv where
  aRes : List Char → Except Unit (List String)
  mxRes : List Char → Except Unit (List String)
  nsRes : List Char → Except Unit (List String)
  ipParses : String → Bool
  country : String → Option String
  http : String → List Char → Option String
  smtp : String → Option String

/-- The name used for DNS resolution: `Punycode` when non-empty, else the
raw name (the shared preamble of `lookupA`/`lookupMX`/`lookupNS`). -/
def dnsQueryName (d : Domain) : List Char :=
  if d.Punycode == [] then d.Domain else d.Punycode

/-- `scanner.lookupA`: on success append each A answer to `DNS["A"]`;
resolver errors and non-success response codes are returned as errors
without touching the record. -/
def lookupA (env : ScanEnv) (d : Domain) : Except Unit Domain :=
  match env.aRes (dnsQueryName d) with
  | Except.error e => Except.error e
  | Except.ok answers =>
    Except.ok { d with DNS := dnsSet d.DNS "A" (dnsGet d.DNS "A" ++ answers) }

/-- `scanner.lookupMX` (same shape as `lookupA`, record type MX). -/
def lookupMX (env : ScanEnv) (d : Domain) : Except Unit Domain :=
  match env.mxRes (dnsQueryName d) with
  | Except.error e => Except.error e
  | Except.ok answers =>
    Except.ok { d with DNS := dnsSet d.DNS "MX" (dnsGet d.DNS "MX" ++ answers) }

/-- `scanner.lookupNS` (same shape as `lookupA`, record type NS). -/
def lookupNS (env : ScanEnv) (d : Domain) : Except Unit Domain :=
  match env.nsRes (dnsQueryName d) with
  | Except.error e => Except.error e
  | Except.ok answers =>
    Except.ok { d with DNS := dnsSet d.DNS "NS" (dnsGet d.DNS "NS" ++ answers) }

/-- The GeoIP block of `scanner.scanDomain`: enabled, database open, at
least one A address; parse the first address and look up its country,
setting `GeoIP` only on full success. -/
def geoStage (env : ScanEnv) (s : Scanner) (d : Domain) : Domain :=
  if s.config.GeoIP && s.geoipOpen && decide (0 < (dnsGet d.DNS "A").length) then
    let ip := (dnsGet d.DNS "A").headD ""
    if env.ipParses ip then
      match env.country ip with
      | some name => { d with GeoIP := name }
      | none => d
    else d
  else d

/-- The HTTP-banner block of `scanner.scanDomain`: probe port 80 of the
first A address with the punycode host header when present; any I/O
failure yields no banner. -/
def httpStage (env : ScanEnv) (s : Scanner) (d : Domain) : Domain :=
  if s.config.Banners && decide (0 < (dnsGet d.DNS "A").length) then
    let hostHeader := if d.Punycode == [] then d.Domain else d.Punycode
    match env.http ((dnsGet d.DNS "A").headD "") hostHeader with
    | some banner => { d with Banner := bannerSet d.Banner "http" banner }
    | none => d
  else d

/-- The MX/SMTP block of `scanner.scanDomain`: resolve MX records; on
success with at least one record, capture the SMTP banner of the first
host. -/
def mxStage (env : ScanEnv) (s : Scanner) (d : Domain) : Domain :=
  if s.config.MXCheck then
    match lookupMX env d with
    | Except.ok dx =>
      if 0 < (dnsGet dx.DNS "MX").length then
        match env.smtp ((dnsGet dx.DNS "MX").headD "") with
        | some banner => { dx with Banner := bannerSet dx.Banner "smtp" banner }
        | none => dx
      else dx
    | Except.error _ => d
  else d

/-- The NS block of `scanner.scanDomain`: resolve NS records, ignoring
failures. -/
def nsStage (env : ScanEnv) (s : Scanner) (d : Domain) : Domain :=
  if s.config.NSCheck then
    match lookupNS env d with
    | Except.ok dx => dx
    | Except.error _ => d
  else d

/-- `scanner.scanDomain`: the per-candidate enrichment pipeline.  An
A-lookup failure returns the candidate as-is; every later stage is
conditioned on configuration and swallows its own failures. -/
def scanDomain (env : ScanEnv) (s : Scanner) (d : Domain) : Domain :=
  match lookupA env d with
  | Except.error _ => d
  | Except.ok d1 => nsStage env s (mxStage env s (httpStage env s (geoStage env s d1)))

/-- The denotation of `scanner.Scan`: each candidate is enriched
independently, results written index-for-index. -/
def Scan (env : ScanEnv) (s : Scanner) (domains : List Domain) : List Domain :=
  domains.map (scanDomain env s)

/-- The concurrent execution of `scanner.Scan`'s worker pool: the result
slice is pre-sized to the input length (`make([]*fuzzer.Domain,
len(domains))`, all entries `nil`), and the tasks — one per index — run in
an arbitrary completion order, each writing `results[i] =
s.scanDomain(domains[i])` to its own index. -/
def execScan (env : ScanEnv) (s : Scanner) (domains : List Domain)
    (order : List Nat) : List (Option Domain) :=
  order.foldl
    (fun acc i => acc.set i (domains[i]?.map (scanDomain env s)))
    (List.replicate domains.length none)

/-! ## Engine-level constructor (`pkg/dnstwist`) -/

/-- `dnstwist.Options` (the flag bundle handed in by the CLI). -/
structure Options where
  Domain : List Char
  All : Bool
  Banners : Bool
  Dictionary : String
  Format : String
  Fuzzers : String
  GeoIP : Bool
  LSH : String
  LSHURL : String
  MXCheck : Bool
  NSCheck : Bool
  Output : String
  Registered : Bool
  Unregistered : Bool
  PHash : Bool
  PHashURL : String
  Screenshots : String
  Threads : Int
  Whois : Bool
  TLD : List String
  Nameservers : String
  UserAgent : String
  deriving Repr

/-- `dnstwist.Engine`. -/
structure Engine where
  options : Options
  fuzzer : Fuzzer
  scanner : Scanner

/-- `dnstwist.New`: the construction-time validation in source order —
empty domain, mutually exclusive filter flags, non-positive thread count,
then `fuzzer.NewFuzzer` returning `nil` (fewer than two labels).  Scanner
construction never fails; GeoIP availability is threaded through. -/
def New (geoipAvailable : Bool) (options : Options) : Except String Engine :=
  if options.Domain == [] then Except.error "domain name is required"
  else if options.Registered && options.Unregistered then
    Except.error "options Registered and Unregistered are mutually exclusive"
  else if options.Threads < 1 then
    Except.error "number of threads must be greater than zero"
  else
    match NewFuzzer options.Domain with
    | none => Except.error "invalid domain name"
    | some f =>
      let f :=
        if 0 < options.TLD.length then
          SetTLDFile f (String.intercalate "," options.TLD)
        else f
      let scannerConfig : Config :=
        { All := options.All, Banners := options.Banners, GeoIP := options.GeoIP,
          LSH := options.LSH, MXCheck := options.MXCheck, NSCheck := options.NSCheck,
          Nameservers := options.Nameservers, PHash := options.PHash,
          Screenshots := options.Screenshots, UserAgent := options.UserAgent,
          Threads := options.Threads }
      Except.ok
        { options := options, fuzzer := f,
          scanner := NewScanner geoipAvailable scannerConfig }

/-- Whether an `Except` value is a success. -/
def isOkE {ε α : Type} : Except ε α → Bool
  | Except.ok _ => true
  | Except.error _ => false

/-! ## Worker-pool admission model

`scanner.Scan` submits one task per candidate through
`semaphore := make(chan struct{}, s.config.Threads)`:
each loop iteration first sends on the semaphore (blocking while all
buffer slots are taken) and only then spawns the goroutine; each goroutine
receives from the semaphore when it finishes.  The state below tracks the
number of not-yet-submitted tasks and the number of running tasks (equal
to the number of occupied buffer slots). -/

structure PoolState where
  pending : Nat
  running : Nat
  deriving DecidableEq, Repr

/-- One scheduler step of the submission loop with semaphore capacity
`cap`: either the main loop submits the next task (possible only while a
buffer slot is free — with capacity 0 a send could complete only by
rendezvous with a waiting receiver, and receivers only arise from
previously submitted tasks), or a running task finishes and releases its
slot. -/
inductive PoolStep (cap : Nat) : PoolState → PoolState → Prop
  | submit (s : PoolState) (hp : 0 < s.pending) (hc : s.running < cap) :
      PoolStep cap s { pending := s.pending - 1, running := s.running + 1 }
  | task_done (s : PoolState) (hr : 0 < s.running) :
      PoolStep cap s { pending := s.pending, running := s.running - 1 }

/-- Reachability under the scheduler steps. -/
def PoolReach (cap : Nat) : PoolState → PoolState → Prop :=
  Relation.ReflTransGen (PoolStep cap)

/-- `make(chan struct{}, n)`: a negative capacity panics (modelled as
`none`); otherwise the gate has `n` buffer slots. -/
def makeSemaphore (threads : Int) : Option Nat :=
  if threads < 0 then none else some threads.toNat

/-- `dnstwist.containsCyrillic` (pkg/dnstwist): true when the string holds
a code point of the Cyrillic Unicode block U+0400–U+04FF. -/
def containsCyrillic (s : List Char) : Bool :=
  s.any (fun r => (0x0400 ≤ r.toNat) && (r.toNat ≤ 0x04FF))

/-- `dnstwist.containsNonASCII` (pkg/dnstwist): true when the string holds
a code point above 127. -/
def containsNonASCII (s : List Char) : Bool :=
  s.any (fun r => 127 < r.toNat)

/-! ## Concrete sample values used to instantiate the theorems -/

/-- The fuzzer state built by `NewFuzzer("google.com")`. -/
def googleFuzzer : Fuzzer :=
  { subdomainPart := [], domain := "google".toList, tld := "com".toList,
    domains := [], tldFile := "" }

/-- `optsW` with a zero thread count. -/
def optsThreads0 : Options :=
  { Domain := "example.com".toList, All := false, Banners := false,
    Dictionary := "", Format := "cli", Fuzzers := "", GeoIP := false, LSH := "",
    LSHURL := "", MXCheck := false, NSCheck := false, Output := "",
    Registered := false, Unregistered := false, PHash := false, PHashURL := "",
    Screenshots := "", Threads := 0, Whois := false, TLD := [],
    Nameservers := "", UserAgent := "" }

/-- A file system with no readable dictionary files. -/
def fsEmpty : String → Option (List String) := fun _ => none

/-- The fuzzer state built by `NewFuzzer("example.com")`. -/
def exampleFuzzer : Fuzzer :=
  { subdomainPart := [], domain := "example".toList, tld := "com".toList,
    domains := [], tldFile := "" }

/-- A fuzzer state whose primary label has the maximal label length 63. -/
def label63Fuzzer : Fuzzer :=
  { subdomainPart := [], domain := List.replicate 63 'a', tld := "com".toList,
    domains := [], tldFile := "" }

/-- A network environment in which every operation fails. -/
def envAllFail : ScanEnv :=
  { aRes := fun _ => Except.error (), mxRes := fun _ => Except.error (),
    nsRes := fun _ => Except.error (), ipParses := fun _ => false,
    country := fun _ => none, http := fun _ _ => none, smtp := fun _ => none }

/-- A network environment in which A resolution succeeds with one address
and every later operation fails. -/
def envOkA : ScanEnv :=
  { aRes := fun _ => Except.ok ["93.184.216.34"], mxRes := fun _ => Except.error (),
    nsRes := fun _ => Except.error (), ipParses := fun _ => true,
    country := fun _ => none, http := fun _ _ => none, smtp := fun _ => none }

/-- A configuration with every enrichment stage enabled and two worker
threads. -/
def cfgW : Config :=
  { All := false, Banners := true, GeoIP := true, LSH := "", MXCheck := true,
    NSCheck := true, Nameservers := "", PHash := false, Screenshots := "",
    UserAgent := "ua", Threads := 2 }

/-- The scanner built from `cfgW` with no GeoIP database available. -/
def scannerW : Scanner := NewScanner false cfgW

/-- A freshly created candidate. -/
def candW : Domain := mkCandidate "original" ("example.com".toList)

/-- A two-candidate batch. -/
def batchW : List Domain :=
  [mkCandidate "original" ("example.com".toList),
   mkCandidate "addition" ("examplea.com".toList)]

/-- An option bundle accepted by `New`. -/
def optsW : Options :=
  { Domain := "example.com".toList, All := false, Banners := false,
    Dictionary := "", Format := "cli", Fuzzers := "", GeoIP := false, LSH := "",
    LSHURL := "", MXCheck := false, NSCheck := false, Output := "",
    Registered := false, Unregistered := false, PHash := false, PHashURL := "",
    Screenshots := "", Threads := 4, Whois := false, TLD := [],
    Nameservers := "", UserAgent := "" }

/-! ## Basic lemmas about the grammar -/

theorem splitOnDot_ne_nil (s : List Char) : splitOnDot s ≠ [] := by
  induction s with
  | nil => simp [splitOnDot]
  | cons c rest ih =>
    by_cases hc : c = '.'
    · subst hc; simp [splitOnDot]
    · simp only [splitOnDot]
      split
      · simp [splitOnDot, hc]
      · simp [splitOnDot, hc]

theorem splitOnDot_cons_ne (c : Char) (rest : List Char) (h : ¬ c = '.') :
    splitOnDot (c :: rest) =
      match splitOnDot rest with
      | [] => [[c]]
      | p :: ps => (c :: p) :: ps := by
  rw [splitOnDot.eq_def]
  split
  · rename_i heq; cases heq
  · rename_i heq
    injection heq with h1 h2
    exact absurd h1 h
  · rename_i heq
    injection heq with h1 h2
    subst h1
    subst h2
    rfl

theorem splitOnDot_append_dot (a t : List Char) (h : ∀ c ∈ a, ¬ c = '.') :
    splitOnDot (a ++ '.' :: t) = a :: splitOnDot t := by
  induction a with
  | nil => simp [splitOnDot]
  | cons c a' ih =>
    have hc : ¬ c = '.' := h c (by simp)
    have ih' : splitOnDot (a' ++ '.' :: t) = a' :: splitOnDot t :=
      ih (fun x hx => h x (by simp [hx]))
    rw [List.cons_append, splitOnDot_cons_ne c _ hc, ih']

theorem splitOnDot_no_dot (t : List Char) (h : ∀ c ∈ t, ¬ c = '.') :
    splitOnDot t = [t] := by
  induction t with
  | nil => rfl
  | cons c t' ih =>
    have hc : ¬ c = '.' := h c (by simp)
    have ih' : splitOnDot t' = [t'] := ih (fun x hx => h x (by simp [hx]))
    rw [splitOnDot_cons_ne c _ hc, ih']

theorem isLabelChar_ne_dot (c : Char) (h : isLabelChar c = true) : ¬ c = '.' := by
  intro hc
  subst hc
  simp [isLabelChar, isLowerAlpha, isDigitChar] at h

theorem isLowerAlpha_ne_dot (c : Char) (h : isLowerAlpha c = true) : ¬ c = '.' := by
  intro hc
  subst hc
  simp [isLowerAlpha] at h

theorem isLowerAlpha_isLabelChar (c : Char) (h : isLowerAlpha c = true) :
    isLabelChar c = true := by
  simp [isLabelChar, h]

/-- A single `label.tld` string passes the gate as soon as the label is a
valid non-final label and the tld a valid final label. -/
theorem matchFQDN_label_tld (label tld : List Char)
    (hl : validLabel label = true) (ht : validFinalLabel tld = true) :
    matchFQDN (label ++ '.' :: tld) = true := by
  have hl' := hl
  have ht' := ht
  simp only [validLabel, Bool.and_eq_true, decide_eq_true_eq, List.all_eq_true] at hl'
  simp only [validFinalLabel, Bool.and_eq_true, decide_eq_true_eq, List.all_eq_true] at ht'
  have hnl : ∀ c ∈ label, ¬ c = '.' := fun c hc =>
    isLabelChar_ne_dot c (hl'.2 c hc)
  have hnt : ∀ c ∈ tld, ¬ c = '.' := fun c hc =>
    isLowerAlpha_ne_dot c (ht'.2 c hc)
  have hsplit : splitOnDot (label ++ '.' :: tld) = [label, tld] := by
    rw [splitOnDot_append_dot label tld hnl, splitOnDot_no_dot tld hnt]
  simp [matchFQDN, hsplit, hl, ht]

/-! ## The gate and the append-only discipline of the candidate store -/

theorem addDomain_of_invalid (f : Fuzzer) (tag : String) (d : List Char)
    (h : matchFQDN d = false) : addDomain f tag d = f := by
  simp [addDomain, h]

theorem addDomain_of_valid (f : Fuzzer) (tag : String) (d : List Char)
    (h : matchFQDN d = true) :
    (addDomain f tag d).domains = f.domains ++ [mkCandidate tag d] := by
  simp [addDomain, h]

/-- `g` extends `f`: the candidate store grows only by appending
gate-approved candidates, all other fields unchanged. -/
def ExtendsValid (f g : Fuzzer) : Prop :=
  (∃ ext, g.domains = f.domains ++ ext ∧ ∀ c ∈ ext, matchFQDN c.Domain = true) ∧
    g.subdomainPart = f.subdomainPart ∧ g.domain = f.domain ∧ g.tld = f.tld

theorem extendsValid_refl (f : Fuzzer) : ExtendsValid f f :=
  ⟨⟨[], by simp⟩, rfl, rfl, rfl⟩

theorem extendsValid_trans {f g h : Fuzzer} (h1 : ExtendsValid f g)
    (h2 : ExtendsValid g h) : ExtendsValid f h := by
  obtain ⟨⟨e1, he1, hv1⟩, hs1, hd1, ht1⟩ := h1
  obtain ⟨⟨e2, he2, hv2⟩, hs2, hd2, ht2⟩ := h2
  refine ⟨⟨e1 ++ e2, ?_, ?_⟩, hs2.trans hs1, hd2.trans hd1, ht2.trans ht1⟩
  · rw [he2, he1, List.append_assoc]
  · intro c hc
    rcases List.mem_append.mp hc with h | h
    · exact hv1 c h
    · exact hv2 c h

theorem addDomain_extends (f : Fuzzer) (tag : String) (d : List Char) :
    ExtendsValid f (addDomain f tag d) := by
  by_cases h : matchFQDN d = true
  · refine ⟨⟨[mkCandidate tag d], addDomain_of_valid f tag d h, ?_⟩, ?_, ?_, ?_⟩ <;>
      simp [addDomain, h, mkCandidate]
  · rw [addDomain_of_invalid f tag d (by simpa using h)]
    exact extendsValid_refl f

theorem foldl_extends {α : Type} (g : Fuzzer → α → Fuzzer)
    (hg : ∀ acc a, ExtendsValid acc (g acc a)) :
    ∀ (l : List α) (f : Fuzzer), ExtendsValid f (l.foldl g f) := by
  intro l
  induction l with
  | nil => intro f; exact extendsValid_refl f
  | cons a l' ih =>
    intro f
    exact extendsValid_trans (hg f a) (ih (g f a))

theorem addition_extends (f : Fuzzer) : ExtendsValid f (addition f) := by
  unfold addition
  exact extendsValid_trans
    (foldl_extends _ (fun acc c => addDomain_extends acc "addition" _) _ f)
    (foldl_extends _ (fun acc c => addDomain_extends acc "addition" _) _ _)

theorem bitsquatting_extends (f : Fuzzer) : ExtendsValid f (bitsquatting f) := by
  unfold bitsquatting
  refine foldl_extends _ (fun acc i => ?_) _ f
  refine foldl_extends _ (fun acc2 bit => ?_) _ acc
  dsimp only
  split
  · exact addDomain_extends _ "bitsquatting" _
  · exact extendsValid_refl _

theorem homoglyph_extends (f : Fuzzer) : ExtendsValid f (homoglyph f) := by
  unfold homoglyph
  refine foldl_extends _ (fun acc i => ?_) _ f
  exact foldl_extends _ (fun acc2 r => addDomain_extends acc2 "homoglyph" _) _ acc

theorem hyphenation_extends (f : Fuzzer) : ExtendsValid f (hyphenation f) := by
  unfold hyphenation
  refine foldl_extends _ (fun acc i => ?_) _ f
  dsimp only
  split
  · exact addDomain_extends _ "hyphenation" _
  · exact extendsValid_refl _

theorem insertion_extends (f : Fuzzer) : ExtendsValid f (insertion f) := by
  unfold insertion
  refine foldl_extends _ (fun acc i => ?_) _ f
  exact extendsValid_trans
    (foldl_extends _ (fun a c => addDomain_extends a "insertion" _) _ acc)
    (foldl_extends _ (fun a c => addDomain_extends a "insertion" _) _ _)

theorem omission_extends (f : Fuzzer) : ExtendsValid f (omission f) := by
  unfold omission
  exact foldl_extends _ (fun acc i => addDomain_extends acc "omission" _) _ f

theorem repetition_extends (f : Fuzzer) : ExtendsValid f (repetition f) := by
  unfold repetition
  exact foldl_extends _ (fun acc i => addDomain_extends acc "repetition" _) _ f

theorem replacement_extends (f : Fuzzer) : ExtendsValid f (replacement f) := by
  unfold replacement
  refine foldl_extends _ (fun acc i => ?_) _ f
  exact foldl_extends _ (fun acc2 r => addDomain_extends acc2 "replacement" _) _ acc

theorem subdomain_extends (f : Fuzzer) : ExtendsValid f (subdomain f) := by
  unfold subdomain
  refine foldl_extends _ (fun acc i => ?_) _ f
  dsimp only
  split
  · exact addDomain_extends _ "subdomain" _
  · exact extendsValid_refl _

theorem transposition_extends (f : Fuzzer) : ExtendsValid f (transposition f) := by
  unfold transposition
  refine foldl_extends _ (fun acc i => ?_) _ f
  dsimp only
  split
  · exact addDomain_extends _ "transposition" _
  · exact extendsValid_refl _

theorem vowelSwap_extends (f : Fuzzer) : ExtendsValid f (vowelSwap f) := by
  unfold vowelSwap
  refine foldl_extends _ (fun acc i => ?_) _ f
  dsimp only
  split
  · refine foldl_extends _ (fun acc2 v => ?_) _ acc
    dsimp only
    split
    · exact extendsValid_refl _
    · exact addDomain_extends _ "vowel-swap" _
  · exact extendsValid_refl _

theorem tldSwap_extends (fs : String → Option (List String)) (f : Fuzzer) :
    ExtendsValid f (tldSwap fs f) := by
  unfold tldSwap
  refine foldl_extends _ (fun acc t => ?_) _ f
  dsimp only
  split
  · exact extendsValid_refl _
  · exact addDomain_extends _ "tld-swap" _

theorem applyFuzzer_extends (fs : String → Option (List String)) (f : Fuzzer)
    (name : List Char) : ExtendsValid f (applyFuzzer fs f name) := by
  unfold applyFuzzer
  by_cases h1 : (name == ("addition").toList) = true
  · rw [if_pos h1]; exact addition_extends f
  rw [if_neg h1]
  by_cases h2 : (name == ("bitsquatting").toList) = true
  · rw [if_pos h2]; exact bitsquatting_extends f
  rw [if_neg h2]
  by_cases h3 : (name == ("homoglyph").toList) = true
  · rw [if_pos h3]; exact homoglyph_extends f
  rw [if_neg h3]
  by_cases h4 : (name == ("hyphenation").toList) = true
  · rw [if_pos h4]; exact hyphenation_extends f
  rw [if_neg h4]
  by_cases h5 : (name == ("insertion").toList) = true
  · rw [if_pos h5]; exact insertion_extends f
  rw [if_neg h5]
  by_cases h6 : (name == ("omission").toList) = true
  · rw [if_pos h6]; exact omission_extends f
  rw [if_neg h6]
  by_cases h7 : (name == ("repetition").toList) = true
  · rw [if_pos h7]; exact repetition_extends f
  rw [if_neg h7]
  by_cases h8 : (name == ("replacement").toList) = true
  · rw [if_pos h8]; exact replacement_extends f
  rw [if_neg h8]
  by_cases h9 : (name == ("subdomain").toList) = true
  · rw [if_pos h9]; exact subdomain_extends f
  rw [if_neg h9]
  by_cases h10 : (name == ("transposition").toList) = true
  · rw [if_pos h10]; exact transposition_extends f
  rw [if_neg h10]
  by_cases h11 : (name == ("vowel-swap").toList) = true
  · rw [if_pos h11]; exact vowelSwap_extends f
  rw [if_neg h11]
  by_cases h12 : (name == ("tld-swap").toList) = true
  · rw [if_pos h12]; exact tldSwap_extends fs f
  rw [if_neg h12]
  exact extendsValid_refl f

/-- Everything `Generate` does after emitting the original is an
append-only, gate-approved extension. -/
theorem Generate_extends (fs : String → Option (List String)) (f : Fuzzer)
    (sel : String) :
    ExtendsValid (addDomain f "original" (f.domain ++ '.' :: f.tld))
      (Generate fs f sel) := by
  unfold Generate
  exact foldl_extends (fun acc (nm : List Char) => applyFuzzer fs acc (trimSpace nm))
    (fun acc (nm : List Char) => applyFuzzer_extends fs acc (trimSpace nm)) _ _

/-! ## Character classification of gate-approved names -/

theorem mem_splitOnDot (s : List Char) (c : Char) (hc : c ∈ s) :
    c = '.' ∨ ∃ p ∈ splitOnDot s, c ∈ p := by
  induction s with
  | nil => cases hc
  | cons x rest ih =>
    by_cases hx : x = '.'
    · subst hx
      rcases List.mem_cons.mp hc with h | h
      · exact Or.inl h
      · rcases ih h with h' | ⟨p, hp, hcp⟩
        · exact Or.inl h'
        · exact Or.inr ⟨p, by simp [splitOnDot, hp], hcp⟩
    · obtain ⟨p0, ps, heq⟩ : ∃ p0 ps, splitOnDot rest = p0 :: ps := by
        cases h : splitOnDot rest with
        | nil => exact absurd h (splitOnDot_ne_nil rest)
        | cons p0 ps => exact ⟨p0, ps, rfl⟩
      have hsplit : splitOnDot (x :: rest) = (x :: p0) :: ps := by
        rw [splitOnDot_cons_ne x rest hx, heq]
      rcases List.mem_cons.mp hc with h | h
      · exact Or.inr ⟨x :: p0, by simp [hsplit], by simp [h]⟩
      · rcases ih h with h' | ⟨p, hp, hcp⟩
        · exact Or.inl h'
        · rw [heq] at hp
          rcases List.mem_cons.mp hp with h'' | h''
          · exact Or.inr ⟨x :: p0, by simp [hsplit], by simp [h'' ▸ hcp]⟩
          · exact Or.inr ⟨p, by simp [hsplit, h''], hcp⟩

/-- Every character of a gate-approved name is a dot or a character of
`[a-z0-9-]`. -/
theorem matchFQDN_chars (s : List Char) (h : matchFQDN s = true) :
    ∀ c ∈ s, c = '.' ∨ isLabelChar c = true := by
  intro c hc
  rcases mem_splitOnDot s c hc with h' | ⟨p, hp, hcp⟩
  · exact Or.inl h'
  · right
    simp only [matchFQDN, Bool.and_eq_true, decide_eq_true_eq,
      List.all_eq_true] at h
    obtain ⟨⟨hlen, hlabels⟩, hfinal⟩ := h
    have hne : splitOnDot s ≠ [] := splitOnDot_ne_nil s
    have hdecomp :
        (splitOnDot s).dropLast ++ [(splitOnDot s).getLast hne] = splitOnDot s :=
      List.dropLast_append_getLast hne
    rw [← hdecomp] at hp
    rcases List.mem_append.mp hp with hmem | hmem
    · have := hlabels p hmem
      simp only [validLabel, Bool.and_eq_true, decide_eq_true_eq,
        List.all_eq_true] at this
      exact this.2 c hcp
    · have hpl : p = (splitOnDot s).getLast hne := by simpa using hmem
      have hlast : (splitOnDot s).getLastD [] = (splitOnDot s).getLast hne := by
        rw [List.getLastD_eq_getLast?, List.getLast?_eq_getLast _ hne]
        rfl
      rw [hlast] at hfinal
      simp only [validFinalLabel, Bool.and_eq_true, decide_eq_true_eq,
        List.all_eq_true] at hfinal
      exact isLowerAlpha_isLabelChar c (hfinal.2 c (hpl ▸ hcp))

/-- A name containing an uppercase ASCII letter never passes the gate. -/
theorem matchFQDN_uppercase (s : List Char) (c : Char) (hc : c ∈ s)
    (hup : 65 ≤ c.toNat ∧ c.toNat ≤ 90) : matchFQDN s = false := by
  by_contra h
  have h' : matchFQDN s = true := by
    cases hm : matchFQDN s
    · exact absurd hm h
    · rfl
  rcases matchFQDN_chars s h' c hc with hdot | hlabel
  · have : c.toNat = 46 := by rw [hdot]; rfl
    omega
  · simp only [isLabelChar, isLowerAlpha, isDigitChar, Bool.or_eq_true,
      Bool.and_eq_true, decide_eq_true_eq, beq_iff_eq] at hlabel
    omega

/-! ## Counting lemma for `foldl` chains of gate-approved stores -/

theorem foldl_addDomain_domains {α : Type} (tag : String) (nm : α → List Char)
    (cs : List α) (h : ∀ c ∈ cs, matchFQDN (nm c) = true) :
    ∀ f0 : Fuzzer,
      (cs.foldl (fun acc c => addDomain acc tag (nm c)) f0).domains =
        f0.domains ++ cs.map (fun c => mkCandidate tag (nm c)) := by
  induction cs with
  | nil => intro f0; simp
  | cons c cs' ih =>
    intro f0
    have hc : matchFQDN (nm c) = true := h c (by simp)
    have ih' := ih (fun x hx => h x (by simp [hx])) (addDomain f0 tag (nm c))
    simp only [List.foldl_cons, List.map_cons]
    rw [ih', addDomain_of_valid f0 tag (nm c) hc, List.append_assoc,
      List.singleton_append]

/-- A fuzzer fresh from `NewFuzzer` has an empty candidate store. -/
theorem NewFuzzer_domains (input : List Char) (f : Fuzzer)
    (hf : NewFuzzer input = some f) : f.domains = [] := by
  simp only [NewFuzzer] at hf
  split at hf
  · cases hf
  · injection hf with h
    subst h
    rfl

/-! ## Claim theorems -/

/-- Claim C1: every candidate stored by the Mutation Engine — by any
mutator and by the original emission, i.e. anything `Generate` adds to a
store whose existing entries are valid — has a name matching the FQDN
grammar `^([a-z0-9-]{1,63}\.)+[a-z]{2,63}$`, and for every mutator output
failing this grammar `addDomain` appends nothing. -/
theorem addDomain_validation_gate (fs : String → Option (List String))
    (f : Fuzzer) (sel : String) (tag : String) (d : List Char)
    (hinv : ∀ c ∈ f.domains, matchFQDN c.Domain = true) :
    (matchFQDN d = false → addDomain f tag d = f) ∧
      ∀ c ∈ (Generate fs f sel).domains, matchFQDN c.Domain = true := by
  constructor
  · exact addDomain_of_invalid f tag d
  · intro c hc
    have h0 := addDomain_extends f "original" (f.domain ++ '.' :: f.tld)
    obtain ⟨⟨ext, hext, hval⟩, _⟩ :=
      extendsValid_trans h0 (Generate_extends fs f sel)
    rw [hext] at hc
    rcases List.mem_append.mp hc with h | h
    · exact hinv c h
    · exact hval c h

/-- Witness for C1 at a concrete input: `"example.c"` fails the grammar
(final label too short) and is not stored. -/
theorem addDomain_validation_gate_witness :
    addDomain exampleFuzzer "addition" (String.toList "example.c") =
      exampleFuzzer :=
  (addDomain_validation_gate fsEmpty exampleFuzzer "addition" "addition"
    (String.toList "example.c") (by simp [exampleFuzzer])).1 (by decide)

/-- Counterexample for C4: the gate performs no lowercasing.
`"Example.com"` differs from the gate-approved `"example.com"` only in
letter case, yet `addDomain` stores nothing at all (in particular it does
not store the lowercased form). -/
theorem addDomain_no_lowercasing_cex :
    matchFQDN (String.toList "example.com") = true ∧
      addDomain exampleFuzzer "original" (String.toList "Example.com") =
        exampleFuzzer := by
  constructor
  · decide
  · decide

/-- Claim C4 (amended): no case normalization happens before the grammar
check; matching is case-sensitive, so any candidate containing an
uppercase ASCII letter fails the gate and nothing is stored. -/
theorem addDomain_case_sensitive (f : Fuzzer) (tag : String) (d : List Char)
    (c : Char) (hc : c ∈ d) (hup : 65 ≤ c.toNat ∧ c.toNat ≤ 90) :
    addDomain f tag d = f :=
  addDomain_of_invalid f tag d (matchFQDN_uppercase d c hc hup)

/-- Witness for C4 at a concrete input. -/
theorem addDomain_case_sensitive_witness :
    addDomain exampleFuzzer "original" (String.toList "Example.com") =
      exampleFuzzer :=
  addDomain_case_sensitive exampleFuzzer "original"
    (String.toList "Example.com") 'E' (by decide) (by decide)

/-- Counterexample for C5: on a primary label of length 63 over the valid
alphabet (with a valid TLD), `addition` stores no candidate at all — every
output has a 64-character label and fails the grammar — rather than 36,
so the count is not independent of L. -/
theorem addition_label63_cex :
    label63Fuzzer.domain.length = 63 ∧
      label63Fuzzer.domain.all isLabelChar = true ∧
      (addition label63Fuzzer).domains = [] := by
  refine ⟨by decide, by decide, by decide⟩

/-- Claim C5 (amended): for every primary label over `[a-z0-9-]` of length
1 ≤ L ≤ 62 and valid final TLD, `addition` stores exactly 36 candidates —
one per character of `a`–`z` and `0`–`9` appended to the end of the
label. -/
theorem addition_stores_36 (f : Fuzzer)
    (hd : f.domain.all isLabelChar = true) (h1 : 1 ≤ f.domain.length)
    (h2 : f.domain.length ≤ 62) (ht : validFinalLabel f.tld = true) :
    (addition f).domains =
      f.domains ++
        (lowercaseLetters ++ digitChars).map
          (fun c => mkCandidate "addition" (f.domain ++ [c] ++ '.' :: f.tld)) ∧
      (addition f).domains.length = f.domains.length + 36 := by
  have hvalid : ∀ c : Char, isLabelChar c = true →
      matchFQDN (f.domain ++ [c] ++ '.' :: f.tld) = true := by
    intro c hc
    apply matchFQDN_label_tld (f.domain ++ [c]) f.tld _ ht
    simp only [validLabel, Bool.and_eq_true, decide_eq_true_eq,
      List.all_eq_true]
    refine ⟨⟨by simp, by simp; omega⟩, ?_⟩
    intro x hx
    rcases List.mem_append.mp hx with h | h
    · exact (List.all_eq_true.mp hd) x h
    · simpa using (List.mem_singleton.mp h) ▸ hc
  have hlclass : ∀ c ∈ lowercaseLetters, isLabelChar c = true := by decide
  have hdclass : ∀ c ∈ digitChars, isLabelChar c = true := by decide
  have hlower : ∀ c ∈ lowercaseLetters,
      matchFQDN (f.domain ++ [c] ++ '.' :: f.tld) = true :=
    fun c hc => hvalid c (hlclass c hc)
  have hdigit : ∀ c ∈ digitChars,
      matchFQDN (f.domain ++ [c] ++ '.' :: f.tld) = true :=
    fun c hc => hvalid c (hdclass c hc)
  have heq : (addition f).domains =
      f.domains ++
        (lowercaseLetters ++ digitChars).map
          (fun c => mkCandidate "addition" (f.domain ++ [c] ++ '.' :: f.tld)) := by
    unfold addition
    rw [foldl_addDomain_domains "addition"
        (fun c => f.domain ++ [c] ++ '.' :: f.tld) digitChars hdigit,
      foldl_addDomain_domains "addition"
        (fun c => f.domain ++ [c] ++ '.' :: f.tld) lowercaseLetters hlower,
      List.map_append, List.append_assoc]
  refine ⟨heq, ?_⟩
  rw [heq]
  simp [lowercaseLetters, digitChars]

/-- Witness for C5 at a concrete input: on `example.com` the `addition`
mutator stores exactly 36 candidates. -/
theorem addition_stores_36_witness :
    (addition exampleFuzzer).domains.length =
      exampleFuzzer.domains.length + 36 :=
  (addition_stores_36 exampleFuzzer (by decide) (by decide) (by decide)
    (by decide)).2

/-- Counterexample for C6: on input `"www.example.com"` (a valid domain
with a subdomain prefix) the first candidate emitted by `Generate` is
`"example.com"`, not the input domain — the subdomain prefix is
dropped. -/
theorem Generate_drops_subdomain_cex :
    (NewFuzzer (String.toList "www.example.com")).map
        (fun f =>
          (Generate fsEmpty f "addition").domains.head?.map
            (fun c => (c.Fuzzer, c.Domain))) =
      some (some ("original", String.toList "example.com")) ∧
      ¬ String.toList "example.com" = String.toList "www.example.com" := by
  constructor
  · decide
  · decide

/-- Claim C6 (amended): for every input accepted by `NewFuzzer` and every
selector, the first candidate emitted by `Generate` is
`primary-label.tld` — the input with any subdomain prefix removed —
tagged `"original"`, provided that name passes the gate. -/
theorem Generate_first_original (fs : String → Option (List String))
    (input : List Char) (sel : String) (f : Fuzzer)
    (hf : NewFuzzer input = some f)
    (hm : matchFQDN (f.domain ++ '.' :: f.tld) = true) :
    (Generate fs f sel).domains.head? =
      some (mkCandidate "original" (f.domain ++ '.' :: f.tld)) := by
  obtain ⟨⟨ext, hext, _⟩, _⟩ := Generate_extends fs f sel
  rw [hext, addDomain_of_valid f _ _ hm, NewFuzzer_domains input f hf]
  simp

/-- Witness for C6 at a concrete input. -/
theorem Generate_first_original_witness :
    (Generate fsEmpty exampleFuzzer "omission").domains.head? =
      some (mkCandidate "original"
        (exampleFuzzer.domain ++ '.' :: exampleFuzzer.tld)) :=
  Generate_first_original fsEmpty (String.toList "example.com") "omission"
    exampleFuzzer (by decide) (by decide)

/-! ## Association-list map lemmas -/

theorem dnsGet_dnsSet_ne (m : List (String × List String)) (k k' : String)
    (v : List String) (h : ¬ k = k') : dnsGet (dnsSet m k v) k' = dnsGet m k' := by
  induction m with
  | nil =>
    simp only [dnsSet, dnsGet]
    rw [if_neg (by simpa using h)]
  | cons p rest ih =>
    simp only [dnsSet]
    by_cases hp : (p.1 == k) = true
    · rw [if_pos hp]
      have hpk : p.1 = k := by simpa using hp
      simp only [dnsGet]
      rw [if_neg (by simpa using h), if_neg (by simp [hpk]; simpa using h)]
    · rw [if_neg hp]
      simp only [dnsGet]
      by_cases hp' : (p.1 == k') = true
      · rw [if_pos hp', if_pos hp']
      · rw [if_neg hp', if_neg hp']
        exact ih

theorem bannerGet_bannerSet_ne (m : List (String × String)) (k k' : String)
    (v : String) (h : ¬ k = k') :
    bannerGet (bannerSet m k v) k' = bannerGet m k' := by
  induction m with
  | nil =>
    simp only [bannerSet, bannerGet]
    rw [if_neg (by simpa using h)]
  | cons p rest ih =>
    simp only [bannerSet]
    by_cases hp : (p.1 == k) = true
    · rw [if_pos hp]
      have hpk : p.1 = k := by simpa using hp
      simp only [bannerGet]
      rw [if_neg (by simpa using h), if_neg (by simp [hpk]; simpa using h)]
    · rw [if_neg hp]
      simp only [bannerGet]
      by_cases hp' : (p.1 == k') = true
      · rw [if_pos hp', if_pos hp']
      · rw [if_neg hp', if_neg hp']
        exact ih

/-! ## Frame lemmas for the enrichment stages -/

/-- The fields never written by the scanner. -/
def FrameEq (d d' : Domain) : Prop :=
  d'.Fuzzer = d.Fuzzer ∧ d'.Domain = d.Domain ∧ d'.Punycode = d.Punycode ∧
    d'.Cyrillic = d.Cyrillic ∧ d'.Whois = d.Whois ∧ d'.LSH = d.LSH ∧
    d'.PHash = d.PHash

theorem frameEq_refl (d : Domain) : FrameEq d d :=
  ⟨rfl, rfl, rfl, rfl, rfl, rfl, rfl⟩

theorem frameEq_trans {d1 d2 d3 : Domain} (h1 : FrameEq d1 d2)
    (h2 : FrameEq d2 d3) : FrameEq d1 d3 := by
  obtain ⟨a1, b1, c1, e1, f1, g1, i1⟩ := h1
  obtain ⟨a2, b2, c2, e2, f2, g2, i2⟩ := h2
  exact ⟨a2.trans a1, b2.trans b1, c2.trans c1, e2.trans e1, f2.trans f1,
    g2.trans g1, i2.trans i1⟩

theorem lookupA_eq_error (env : ScanEnv) (d : Domain)
    (h : env.aRes (dnsQueryName d) = Except.error ()) :
    lookupA env d = Except.error () := by
  unfold lookupA
  rw [h]

theorem lookupA_eq_ok (env : ScanEnv) (d : Domain) (as : List String)
    (h : env.aRes (dnsQueryName d) = Except.ok as) :
    lookupA env d =
      Except.ok { d with DNS := dnsSet d.DNS "A" (dnsGet d.DNS "A" ++ as) } := by
  unfold lookupA
  rw [h]

theorem lookupMX_eq_error (env : ScanEnv) (d : Domain)
    (h : env.mxRes (dnsQueryName d) = Except.error ()) :
    lookupMX env d = Except.error () := by
  unfold lookupMX
  rw [h]

theorem lookupNS_eq_error (env : ScanEnv) (d : Domain)
    (h : env.nsRes (dnsQueryName d) = Except.error ()) :
    lookupNS env d = Except.error () := by
  unfold lookupNS
  rw [h]

theorem lookupA_ok_frame (env : ScanEnv) (d d1 : Domain)
    (h : lookupA env d = Except.ok d1) :
    FrameEq d d1 ∧ d1.GeoIP = d.GeoIP ∧ d1.Banner = d.Banner := by
  unfold lookupA at h
  cases ha : env.aRes (dnsQueryName d) with
  | error e => rw [ha] at h; cases h
  | ok as =>
    rw [ha] at h
    injection h with h
    subst h
    exact ⟨⟨rfl, rfl, rfl, rfl, rfl, rfl, rfl⟩, rfl, rfl⟩

theorem lookupMX_ok_frame (env : ScanEnv) (d d1 : Domain)
    (h : lookupMX env d = Except.ok d1) :
    FrameEq d d1 ∧ d1.GeoIP = d.GeoIP ∧ d1.Banner = d.Banner ∧
      (∀ k, ¬ k = "MX" → dnsGet d1.DNS k = dnsGet d.DNS k) := by
  unfold lookupMX at h
  cases ha : env.mxRes (dnsQueryName d) with
  | error e => rw [ha] at h; cases h
  | ok as =>
    rw [ha] at h
    injection h with h
    subst h
    refine ⟨⟨rfl, rfl, rfl, rfl, rfl, rfl, rfl⟩, rfl, rfl, ?_⟩
    intro k hk
    exact dnsGet_dnsSet_ne d.DNS "MX" k _ (fun he => hk he.symm)

theorem lookupNS_ok_frame (env : ScanEnv) (d d1 : Domain)
    (h : lookupNS env d = Except.ok d1) :
    FrameEq d d1 ∧ d1.GeoIP = d.GeoIP ∧ d1.Banner = d.Banner ∧
      (∀ k, ¬ k = "NS" → dnsGet d1.DNS k = dnsGet d.DNS k) := by
  unfold lookupNS at h
  cases ha : env.nsRes (dnsQueryName d) with
  | error e => rw [ha] at h; cases h
  | ok as =>
    rw [ha] at h
    injection h with h
    subst h
    refine ⟨⟨rfl, rfl, rfl, rfl, rfl, rfl, rfl⟩, rfl, rfl, ?_⟩
    intro k hk
    exact dnsGet_dnsSet_ne d.DNS "NS" k _ (fun he => hk he.symm)

/-- `geoStage` writes at most `GeoIP`. -/
theorem geoStage_frame (env : ScanEnv) (s : Scanner) (d : Domain) :
    FrameEq d (geoStage env s d) ∧ (geoStage env s d).DNS = d.DNS ∧
      (geoStage env s d).Banner = d.Banner := by
  unfold geoStage
  split
  · dsimp only
    split
    · cases hc : env.country ((dnsGet d.DNS "A").headD "") with
      | some name => exact ⟨⟨rfl, rfl, rfl, rfl, rfl, rfl, rfl⟩, rfl, rfl⟩
      | none => exact ⟨frameEq_refl d, rfl, rfl⟩
    · exact ⟨frameEq_refl d, rfl, rfl⟩
  · exact ⟨frameEq_refl d, rfl, rfl⟩

/-- `httpStage` writes at most the `"http"` entry of `Banner`. -/
theorem httpStage_frame (env : ScanEnv) (s : Scanner) (d : Domain) :
    FrameEq d (httpStage env s d) ∧ (httpStage env s d).DNS = d.DNS ∧
      (httpStage env s d).GeoIP = d.GeoIP ∧
      (∀ k, ¬ k = "http" →
        bannerGet (httpStage env s d).Banner k = bannerGet d.Banner k) := by
  unfold httpStage
  split
  · dsimp only
    cases hh : env.http ((dnsGet d.DNS "A").headD "")
        (if (d.Punycode == []) = true then d.Domain else d.Punycode) with
    | some banner =>
      refine ⟨⟨rfl, rfl, rfl, rfl, rfl, rfl, rfl⟩, rfl, rfl, ?_⟩
      intro k hk
      exact bannerGet_bannerSet_ne d.Banner "http" k _ (fun he => hk he.symm)
    | none => exact ⟨frameEq_refl d, rfl, rfl, fun k _ => rfl⟩
  · exact ⟨frameEq_refl d, rfl, rfl, fun k _ => rfl⟩

/-- `mxStage` writes at most the `"MX"` entry of `DNS` and the `"smtp"`
entry of `Banner`. -/
theorem mxStage_frame (env : ScanEnv) (s : Scanner) (d : Domain) :
    FrameEq d (mxStage env s d) ∧ (mxStage env s d).GeoIP = d.GeoIP ∧
      (∀ k, ¬ k = "MX" → dnsGet (mxStage env s d).DNS k = dnsGet d.DNS k) ∧
      (∀ k, ¬ k = "smtp" →
        bannerGet (mxStage env s d).Banner k = bannerGet d.Banner k) := by
  unfold mxStage
  split
  · cases hmx : lookupMX env d with
    | error e => exact ⟨frameEq_refl d, rfl, fun k _ => rfl, fun k _ => rfl⟩
    | ok dx =>
      obtain ⟨hf, hg, hb, hdns⟩ := lookupMX_ok_frame env d dx hmx
      dsimp only
      split
      · cases hs : env.smtp ((dnsGet dx.DNS "MX").headD "") with
        | some banner =>
          refine ⟨frameEq_trans hf ⟨rfl, rfl, rfl, rfl, rfl, rfl, rfl⟩, hg,
            hdns, ?_⟩
          intro k hk
          show bannerGet (bannerSet dx.Banner "smtp" banner) k = bannerGet d.Banner k
          rw [bannerGet_bannerSet_ne dx.Banner "smtp" k _ (fun he => hk he.symm), hb]
        | none => exact ⟨hf, hg, hdns, fun k _ => by rw [hb]⟩
      · exact ⟨hf, hg, hdns, fun k _ => by rw [hb]⟩
  · exact ⟨frameEq_refl d, rfl, fun k _ => rfl, fun k _ => rfl⟩

/-- `nsStage` writes at most the `"NS"` entry of `DNS`. -/
theorem nsStage_frame (env : ScanEnv) (s : Scanner) (d : Domain) :
    FrameEq d (nsStage env s d) ∧ (nsStage env s d).GeoIP = d.GeoIP ∧
      (nsStage env s d).Banner = d.Banner ∧
      (∀ k, ¬ k = "NS" → dnsGet (nsStage env s d).DNS k = dnsGet d.DNS k) := by
  unfold nsStage
  split
  · cases hns : lookupNS env d with
    | error e => exact ⟨frameEq_refl d, rfl, rfl, fun k _ => rfl⟩
    | ok dx =>
      obtain ⟨hf, hg, hb, hdns⟩ := lookupNS_ok_frame env d dx hns
      exact ⟨hf, hg, hb, hdns⟩
  · exact ⟨frameEq_refl d, rfl, rfl, fun k _ => rfl⟩

/-- The whole pipeline never writes the reserved fields. -/
theorem scanDomain_frame (env : ScanEnv) (s : Scanner) (d : Domain) :
    FrameEq d (scanDomain env s d) := by
  unfold scanDomain
  cases ha : lookupA env d with
  | error e => exact frameEq_refl d
  | ok d1 =>
    have h1 := (lookupA_ok_frame env d d1 ha).1
    have h2 := (geoStage_frame env s d1).1
    have h3 := (httpStage_frame env s (geoStage env s d1)).1
    have h4 := (mxStage_frame env s (httpStage env s (geoStage env s d1))).1
    have h5 := (nsStage_frame env s
      (mxStage env s (httpStage env s (geoStage env s d1)))).1
    exact frameEq_trans h1 (frameEq_trans h2 (frameEq_trans h3
      (frameEq_trans h4 h5)))

/-! ## Disjoint-index writes commute: the worker-pool result is
order-independent -/

theorem foldl_set_length {α : Type} (g : Nat → α) (order : List Nat) :
    ∀ acc : List α,
      (order.foldl (fun a i => a.set i (g i)) acc).length = acc.length := by
  induction order with
  | nil => intro acc; rfl
  | cons i rest ih =>
    intro acc
    simp only [List.foldl_cons]
    rw [ih (acc.set i (g i)), List.length_set]

theorem foldl_set_getElem? {α : Type} (g : Nat → α) (order : List Nat) :
    ∀ (acc : List α) (j : Nat),
      (order.foldl (fun a i => a.set i (g i)) acc)[j]? =
        if j ∈ order ∧ j < acc.length then some (g j) else acc[j]? := by
  induction order with
  | nil =>
    intro acc j
    simp
  | cons i rest ih =>
    intro acc j
    simp only [List.foldl_cons]
    rw [ih (acc.set i (g i)) j, List.length_set]
    by_cases hm : j ∈ rest
    · by_cases hj : j < acc.length
      · rw [if_pos ⟨hm, hj⟩, if_pos ⟨by simp [hm], hj⟩]
      · rw [if_neg (fun hco => hj hco.2), if_neg (fun hco => hj hco.2),
          List.getElem?_eq_none (by simpa using Nat.le_of_not_lt hj),
          List.getElem?_eq_none (Nat.le_of_not_lt hj)]
    · by_cases hji : j = i
      · subst hji
        rw [if_neg (fun hco => hm hco.1)]
        by_cases hj : j < acc.length
        · rw [if_pos ⟨by simp, hj⟩, List.getElem?_set_self',
            List.getElem?_eq_getElem hj]
          rfl
        · rw [if_neg (fun hco => hj hco.2),
            List.getElem?_eq_none (by simpa using Nat.le_of_not_lt hj),
            List.getElem?_eq_none (Nat.le_of_not_lt hj)]
      · rw [if_neg (fun hco => hm hco.1),
          if_neg (fun hco => hji (by simpa [hm] using hco.1)),
          List.getElem?_set_ne (fun he => hji he.symm)]

/-- Claim C2: for every thread count T ≥ 1 and every completion order of
the worker tasks (any permutation of the indices), the concurrently
written result slice equals the sequential denotation: `Scan` returns
exactly one result per input, index-for-index, and the i-th result is the
enriched counterpart of the i-th input (same `Domain` name). -/
theorem Scan_order_preserving (s : Scanner) (env : ScanEnv) (ds : List Domain)
    (order : List Nat) (hT : 1 ≤ s.config.Threads)
    (hperm : order.Perm (List.range ds.length)) :
    execScan env s ds order = (Scan env s ds).map some ∧
      (Scan env s ds).length = ds.length ∧
      ∀ i, i < ds.length →
        ((Scan env s ds).getD i (mkCandidate "" [])).Domain =
          (ds.getD i (mkCandidate "" [])).Domain := by
  have hmem : ∀ j, j ∈ order ↔ j < ds.length := by
    intro j
    rw [hperm.mem_iff, List.mem_range]
  refine ⟨?_, by simp [Scan], ?_⟩
  · apply List.ext_getElem?
    intro j
    unfold execScan Scan
    rw [foldl_set_getElem? (fun i => ds[i]?.map (scanDomain env s)) order
      (List.replicate ds.length none) j]
    by_cases hj : j < ds.length
    · rw [if_pos ⟨(hmem j).mpr hj, by simpa using hj⟩,
        List.getElem?_map, List.getElem?_map, List.getElem?_eq_getElem hj]
      rfl
    · rw [if_neg (fun hco => hj (by simpa using hco.2)),
        List.getElem?_eq_none (by simpa using Nat.le_of_not_lt hj),
        List.getElem?_eq_none (by simpa using Nat.le_of_not_lt hj)]
  · intro i hi
    rw [List.getD_eq_getElem?_getD, List.getD_eq_getElem?_getD]
    unfold Scan
    rw [List.getElem?_map, List.getElem?_eq_getElem hi]
    exact (scanDomain_frame env s (ds.get ⟨i, hi⟩)).2.1

/-- Witness for C2 at a concrete input: a two-candidate batch written in
reversed completion order. -/
theorem Scan_order_preserving_witness :
    execScan envOkA scannerW batchW [1, 0] =
        (Scan envOkA scannerW batchW).map some ∧
      (Scan envOkA scannerW batchW).length = batchW.length :=
  ⟨(Scan_order_preserving scannerW envOkA batchW [1, 0] (by decide)
      (by decide)).1,
    (Scan_order_preserving scannerW envOkA batchW [1, 0] (by decide)
      (by decide)).2.1⟩

/-! ## Failure behaviour of the individual stages -/

theorem geoStage_GeoIP_none (env : ScanEnv) (s : Scanner) (x : Domain)
    (h : ∀ ip, env.country ip = none) : (geoStage env s x).GeoIP = x.GeoIP := by
  unfold geoStage
  split
  · dsimp only
    split
    · rw [h ((dnsGet x.DNS "A").headD "")]
    · rfl
  · rfl

theorem httpStage_of_none (env : ScanEnv) (s : Scanner) (x : Domain)
    (h : ∀ ip hh, env.http ip hh = none) : httpStage env s x = x := by
  unfold httpStage
  split
  · dsimp only
    rw [h ((dnsGet x.DNS "A").headD "")
      (if (x.Punycode == []) = true then x.Domain else x.Punycode)]
  · rfl

theorem mxStage_of_error (env : ScanEnv) (s : Scanner) (x : Domain)
    (h : env.mxRes (dnsQueryName x) = Except.error ()) :
    mxStage env s x = x := by
  unfold mxStage
  split
  · rw [lookupMX_eq_error env x h]
  · rfl

theorem nsStage_of_error (env : ScanEnv) (s : Scanner) (x : Domain)
    (h : env.nsRes (dnsQueryName x) = Except.error ()) :
    nsStage env s x = x := by
  unfold nsStage
  split
  · rw [lookupNS_eq_error env x h]
  · rfl

theorem frameEq_dnsQueryName {d x : Domain} (h : FrameEq d x) :
    dnsQueryName x = dnsQueryName d := by
  unfold dnsQueryName
  rw [h.2.2.1, h.2.1]

/-- Claim C8: if A-record resolution fails (resolver error or non-success
response code), all remaining enrichment stages are skipped and the
candidate is returned exactly as it came in, with no error surfaced
(`Scan` is total and returns one result per input).  When A resolution
succeeds, a failure in any later stage leaves only that stage's field
unchanged (empty when it started empty) and never aborts the pipeline or
the batch. -/
theorem scanDomain_failure_isolation (env : ScanEnv) (s : Scanner) (d : Domain)
    (ds : List Domain) :
    (env.aRes (dnsQueryName d) = Except.error () → scanDomain env s d = d) ∧
      (∀ as, env.aRes (dnsQueryName d) = Except.ok as →
        (scanDomain env s d).Domain = d.Domain ∧
          ((∀ ip, env.country ip = none) →
            (scanDomain env s d).GeoIP = d.GeoIP) ∧
          ((∀ ip hh, env.http ip hh = none) →
            bannerGet (scanDomain env s d).Banner "http" =
              bannerGet d.Banner "http") ∧
          (env.mxRes (dnsQueryName d) = Except.error () →
            dnsGet (scanDomain env s d).DNS "MX" = dnsGet d.DNS "MX" ∧
              bannerGet (scanDomain env s d).Banner "smtp" =
                bannerGet d.Banner "smtp") ∧
          (env.nsRes (dnsQueryName d) = Except.error () →
            dnsGet (scanDomain env s d).DNS "NS" = dnsGet d.DNS "NS")) ∧
      (Scan env s ds).length = ds.length := by
  refine ⟨?_, ?_, by simp [Scan]⟩
  · intro h
    unfold scanDomain
    rw [lookupA_eq_error env d h]
  · intro as ha
    have hscan : scanDomain env s d =
        nsStage env s (mxStage env s (httpStage env s (geoStage env s
          { d with DNS := dnsSet d.DNS "A" (dnsGet d.DNS "A" ++ as) }))) := by
      unfold scanDomain
      rw [lookupA_eq_ok env d as ha]
    set d1 : Domain :=
      { d with DNS := dnsSet d.DNS "A" (dnsGet d.DNS "A" ++ as) } with hd1
    have hf1 : FrameEq d d1 := ⟨rfl, rfl, rfl, rfl, rfl, rfl, rfl⟩
    have hfgeo := geoStage_frame env s d1
    have hfhttp := httpStage_frame env s (geoStage env s d1)
    have hfmx := mxStage_frame env s (httpStage env s (geoStage env s d1))
    have hfns := nsStage_frame env s
      (mxStage env s (httpStage env s (geoStage env s d1)))
    refine ⟨?_, ?_, ?_, ?_, ?_⟩
    · exact (scanDomain_frame env s d).2.1
    · intro hgeo
      rw [hscan, hfns.2.1, hfmx.2.1, hfhttp.2.2.1,
        geoStage_GeoIP_none env s d1 hgeo]
    · intro hhttp
      rw [hscan, hfns.2.2.1, hfmx.2.2.2 "http" (by decide),
        httpStage_of_none env s (geoStage env s d1) hhttp, hfgeo.2.2]
    · intro hmx
      have hqz : dnsQueryName (httpStage env s (geoStage env s d1)) =
          dnsQueryName d :=
        frameEq_dnsQueryName
          (frameEq_trans hf1 (frameEq_trans hfgeo.1 hfhttp.1))
      have hmxskip : mxStage env s (httpStage env s (geoStage env s d1)) =
          httpStage env s (geoStage env s d1) :=
        mxStage_of_error env s _ (by rw [hqz]; exact hmx)
      constructor
      · rw [hscan, hfns.2.2.2 "MX" (by decide), hmxskip, hfhttp.2.1,
          hfgeo.2.1]
        exact dnsGet_dnsSet_ne d.DNS "A" "MX" _ (by decide)
      · rw [hscan, hfns.2.2.1, hmxskip, hfhttp.2.2.2 "smtp" (by decide),
          hfgeo.2.2]
    · intro hns
      have hqw : dnsQueryName
          (mxStage env s (httpStage env s (geoStage env s d1))) =
            dnsQueryName d :=
        frameEq_dnsQueryName (frameEq_trans hf1 (frameEq_trans hfgeo.1
          (frameEq_trans hfhttp.1 hfmx.1)))
      have hnsskip : nsStage env s
          (mxStage env s (httpStage env s (geoStage env s d1))) =
            mxStage env s (httpStage env s (geoStage env s d1)) :=
        nsStage_of_error env s _ (by rw [hqw]; exact hns)
      rw [hscan, hnsskip, hfmx.2.2.1 "NS" (by decide), hfhttp.2.1, hfgeo.2.1]
      exact dnsGet_dnsSet_ne d.DNS "A" "NS" _ (by decide)

/-- Witness for C8 at concrete inputs: a failing resolver leaves the
candidate untouched; with A resolution succeeding and the HTTP probe
failing, the http banner entry stays as it was; the batch length is always
preserved. -/
theorem scanDomain_failure_isolation_witness :
    scanDomain envAllFail scannerW candW = candW ∧
      bannerGet (scanDomain envOkA scannerW candW).Banner "http" =
        bannerGet candW.Banner "http" ∧
      (Scan envAllFail scannerW batchW).length = batchW.length :=
  ⟨(scanDomain_failure_isolation envAllFail scannerW candW batchW).1 rfl,
    ((scanDomain_failure_isolation envOkA scannerW candW batchW).2.1
      ["93.184.216.34"] rfl).2.2.1 (fun ip hh => rfl),
    (scanDomain_failure_isolation envAllFail scannerW candW batchW).2.2⟩

/-- Claim C9: candidate creation (`addDomain`) initializes the DNS,
Banner, Whois and LSH maps to empty, and per-candidate enrichment writes
only the DNS map, the GeoIP string and the Banner map: the `Fuzzer` tag,
`Domain` name, `Whois`, `LSH` and `PHash` fields are identical before and
after `scanDomain`, elementwise through `Scan`. -/
theorem candidate_frame_conditions (f : Fuzzer) (tag : String) (nm : List Char)
    (env : ScanEnv) (s : Scanner) (d : Domain) (ds : List Domain) :
    (matchFQDN nm = true →
      (addDomain f tag nm).domains =
        f.domains ++
          [{ Fuzzer := tag, Domain := nm, Punycode := [], Cyrillic := false,
             DNS := [], GeoIP := "", Banner := [], Whois := [], LSH := [],
             PHash := 0 }]) ∧
      ((scanDomain env s d).Fuzzer = d.Fuzzer ∧
        (scanDomain env s d).Domain = d.Domain ∧
        (scanDomain env s d).Whois = d.Whois ∧
        (scanDomain env s d).LSH = d.LSH ∧
        (scanDomain env s d).PHash = d.PHash) ∧
      ∀ i, i < ds.length →
        ((Scan env s ds).getD i (mkCandidate "" [])).Fuzzer =
            (ds.getD i (mkCandidate "" [])).Fuzzer ∧
          ((Scan env s ds).getD i (mkCandidate "" [])).Whois =
            (ds.getD i (mkCandidate "" [])).Whois ∧
          ((Scan env s ds).getD i (mkCandidate "" [])).LSH =
            (ds.getD i (mkCandidate "" [])).LSH ∧
          ((Scan env s ds).getD i (mkCandidate "" [])).PHash =
            (ds.getD i (mkCandidate "" [])).PHash := by
  refine ⟨?_, ?_, ?_⟩
  · intro h
    rw [addDomain_of_valid f tag nm h]
    rfl
  · have hfr := scanDomain_frame env s d
    exact ⟨hfr.1, hfr.2.1, hfr.2.2.2.2.1, hfr.2.2.2.2.2.1, hfr.2.2.2.2.2.2⟩
  · intro i hi
    rw [List.getD_eq_getElem?_getD, List.getD_eq_getElem?_getD]
    unfold Scan
    rw [List.getElem?_map, List.getElem?_eq_getElem hi]
    have hfr := scanDomain_frame env s (ds.get ⟨i, hi⟩)
    exact ⟨hfr.1, hfr.2.2.2.2.1, hfr.2.2.2.2.2.1, hfr.2.2.2.2.2.2⟩

/-- Witness for C9 at concrete inputs. -/
theorem candidate_frame_conditions_witness :
    (addDomain exampleFuzzer "original" (String.toList "example.com")).domains =
        exampleFuzzer.domains ++
          [{ Fuzzer := "original", Domain := String.toList "example.com",
             Punycode := [], Cyrillic := false, DNS := [], GeoIP := "",
             Banner := [], Whois := [], LSH := [], PHash := 0 }] ∧
      (scanDomain envOkA scannerW candW).PHash = candW.PHash :=
  ⟨(candidate_frame_conditions exampleFuzzer "original"
      (String.toList "example.com") envOkA scannerW candW batchW).1 (by decide),
    (candidate_frame_conditions exampleFuzzer "original"
      (String.toList "example.com") envOkA scannerW candW batchW).2.1.2.2.2.2⟩

/-- Claim C10: `Scan` reaches its wait-for-all barrier exactly under the
thread-count precondition enforced only at the engine level:
`NewScanner` performs no validation; a negative thread count makes
creation of the admission gate panic; with a zero-capacity gate the
submission loop is blocked forever on a non-empty batch; with capacity at
least 1 the pool always drains; and the engine-level constructor `New`
rejects any non-positive thread count. -/
theorem scan_pool_threads_model :
    (∀ (g : Bool) (cfg : Config), (NewScanner g cfg).config = cfg) ∧
      (∀ t : Int, t < 0 → makeSemaphore t = none) ∧
      (∀ cap n : Nat, 1 ≤ cap →
        PoolReach cap { pending := n, running := 0 }
          { pending := 0, running := 0 }) ∧
      (∀ (n : Nat) (s' : PoolState), 0 < n →
        ¬ PoolStep 0 { pending := n, running := 0 } s') ∧
      (∀ (g : Bool) (opts : Options), opts.Threads < 1 →
        isOkE (New g opts) = false) := by
  refine ⟨fun g cfg => rfl, ?_, ?_, ?_, ?_⟩
  · intro t ht
    simp [makeSemaphore, ht]
  · intro cap n hcap
    induction n with
    | zero => exact Relation.ReflTransGen.refl
    | succ n ih =>
      refine Relation.ReflTransGen.head
        (PoolStep.submit { pending := n + 1, running := 0 } (Nat.succ_pos n)
          hcap) ?_
      exact Relation.ReflTransGen.head
        (PoolStep.task_done { pending := n, running := 1 } Nat.one_pos) ih
  · intro n s' hn hstep
    cases hstep with
    | submit hp hc => exact Nat.lt_irrefl 0 hc
    | task_done hr => exact Nat.lt_irrefl 0 hr
  · intro g opts ht
    unfold New
    by_cases h1 : (opts.Domain == []) = true
    · rw [if_pos h1]
      rfl
    · rw [if_neg h1]
      by_cases h2 : (opts.Registered && opts.Unregistered) = true
      · rw [if_pos h2]
        rfl
      · rw [if_neg h2, if_pos ht]
        rfl

/-- Witness for C10 at concrete inputs: a capacity-2 pool drains three
tasks; the zero-capacity gate admits no step from one pending task; a
negative capacity fails gate creation; `New` rejects zero threads. -/
theorem scan_pool_threads_model_witness :
    (NewScanner false cfgW).config = cfgW ∧
      makeSemaphore (-1) = none ∧
      PoolReach 2 { pending := 3, running := 0 } { pending := 0, running := 0 } ∧
      ¬ PoolStep 0 { pending := 1, running := 0 } { pending := 0, running := 1 } ∧
      isOkE (New false optsThreads0) = false :=
  ⟨scan_pool_threads_model.1 false cfgW,
    scan_pool_threads_model.2.1 (-1) (by decide),
    scan_pool_threads_model.2.2.1 2 3 (by decide),
    scan_pool_threads_model.2.2.2.1 1 { pending := 0, running := 1 } (by decide),
    scan_pool_threads_model.2.2.2.2 false optsThreads0 (by decide)⟩

/-- Claim C7: engine construction fails exactly when the target domain is
invalid (empty, or fewer than two dot-separated labels), the thread count
is non-positive, or the Registered and Unregistered filter flags are both
set; every other option bundle yields an engine with no error. -/
theorem New_fails_iff (g : Bool) (opts : Options) :
    isOkE (New g opts) = false ↔
      (opts.Domain = [] ∨ (splitOnDot opts.Domain).length < 2 ∨
        opts.Threads < 1 ∨
        (opts.Registered = true ∧ opts.Unregistered = true)) := by
  unfold New
  by_cases h1 : (opts.Domain == []) = true
  · rw [if_pos h1]
    exact ⟨fun _ => Or.inl (by simpa using h1), fun _ => rfl⟩
  · rw [if_neg h1]
    have hD : ¬ opts.Domain = [] := by simpa using h1
    by_cases h2 : (opts.Registered && opts.Unregistered) = true
    · rw [if_pos h2]
      refine ⟨fun _ => ?_, fun _ => rfl⟩
      right; right; right
      simpa [Bool.and_eq_true] using h2
    · rw [if_neg h2]
      by_cases h3 : opts.Threads < 1
      · rw [if_pos h3]
        exact ⟨fun _ => Or.inr (Or.inr (Or.inl h3)), fun _ => rfl⟩
      · rw [if_neg h3]
        by_cases h4 : (splitOnDot opts.Domain).length < 2
        · have hnone : NewFuzzer opts.Domain = none := by
            simp only [NewFuzzer]
            rw [if_pos h4]
          rw [hnone]
          exact ⟨fun _ => Or.inr (Or.inl h4), fun _ => rfl⟩
        · obtain ⟨fz, hfz⟩ : ∃ fz, NewFuzzer opts.Domain = some fz := by
            simp only [NewFuzzer]
            rw [if_neg h4]
            exact ⟨_, rfl⟩
          rw [hfz]
          constructor
          · intro hok
            exact absurd hok (by simp [isOkE])
          · intro hcon
            exfalso
            rcases hcon with h | h | h | h
            · exact hD h
            · exact h4 h
            · exact h3 h
            · exact h2 (by simp [h.1, h.2])

/-- Claim C3, evaluated on the code at the failing input: running the
homoglyph mutator on target `google.com` stores only three ASCII copies of
`"google.com"` — every candidate containing a Cyrillic (or any non-ASCII)
code point is dropped by the ASCII FQDN gate, and no stored candidate
carries a punycode encoding. -/
theorem homoglyph_google_no_cyrillic :
    NewFuzzer (String.toList "google.com") = some googleFuzzer ∧
      (homoglyph googleFuzzer).domains.map (fun c => (c.Fuzzer, c.Domain)) =
        [("homoglyph", String.toList "google.com"),
         ("homoglyph", String.toList "google.com"),
         ("homoglyph", String.toList "google.com")] ∧
      (∀ c ∈ (homoglyph googleFuzzer).domains,
        containsCyrillic c.Domain = false ∧ containsNonASCII c.Domain = false) ∧
      ∀ c ∈ (homoglyph googleFuzzer).domains, c.Punycode = [] := by
  refine ⟨by decide, by decide, by decide, by decide⟩

end Godnstwist













